import Mathlib

/-!
Verification of the twiboot-style bootloader driver
(base_node_rpc/bootloader_driver.py): the transport-protocol codec
(TwiBootloader), the page loader (load_pages) and the firmware write loop
(write_firmware).

Modelling choices, all taken from the source:
* The external I2C transaction primitive (proxy.i2c_write / proxy.i2c_read)
  is an injected collaborator.  We model it as a Device oracle answering
  reads from the history of transactions performed so far, plus a
  ProxyState recording that history as a trace.  Byte values are Nat.
* load_pages in the source reads a file and parses Intel HEX text through
  external collaborators; the part belonging to this repository starts from
  the concatenated data bytes of the record-type-0 records.  Our load_pages
  therefore takes those data bytes directly.  Python failure modes are made
  explicit: with page_size = 0 the comprehension over
  range(0, len(data_bytes), 0) raises ValueError (zero step), and with an
  empty byte list the final padding statement pages[-1].extend(...) raises
  IndexError.
* The retry loop of write_firmware iterates over delay_durations, a
  np.logspace(..., num=10) array whose ten entries are only ever passed to
  time.sleep; the number of write/verify attempts per page is therefore
  always 10 and the delay values do not influence the byte-level
  behaviour.  The loop is modelled with 10 attempts, and the delay values
  themselves are modelled separately over the reals (max_delay, logspace,
  delay_durations below).
* The NumPy verify comparison (verify_data_i == page_i).all(), with the
  AttributeError catch treating a length mismatch like a data mismatch,
  succeeds exactly when the two byte sequences are equal as lists.
-/

/-- One I2C transaction against the bootloader, as issued by the proxy
primitive: either a write of a byte list to a device address, or a read of
n bytes from a device address. -/
inductive Tx where
  | write (addr : Nat) (data : List Nat)
  | read (addr : Nat) (n : Nat)
deriving DecidableEq

/-- The external transaction primitive: a device oracle.  A read of n bytes
at device address a is answered from the history of transactions issued so
far (the trace up to, and not including, the read itself). -/
structure Device where
  respond : List Tx → Nat → Nat → List Nat

/-- State owned by the proxy: the ordered history of transactions issued. -/
structure ProxyState where
  trace : List Tx
deriving DecidableEq

/-- proxy.i2c_write: issue one write transaction. -/
def i2c_write (a : Nat) (data : List Nat) (s : ProxyState) : ProxyState :=
  ⟨s.trace ++ [Tx.write a data]⟩

/-- proxy.i2c_read: issue one read transaction; the device answers from the
history of transactions issued before the read. -/
def i2c_read (dev : Device) (a n : Nat) (s : ProxyState) : List Nat × ProxyState :=
  (dev.respond s.trace a n, ⟨s.trace ++ [Tx.read a n]⟩)

/-- The driver object: the injected device oracle plus the bootloader I2C
address (0x29 by default in the source). -/
structure TwiBootloader where
  dev : Device
  bootloader_address : Nat

/-- High address byte, as computed throughout the codec:
address >> 8 & 0xFF. -/
def addr_high (address : Nat) : Nat :=
  address >>> 8 &&& 0xFF

/-- Low address byte, as computed throughout the codec: address & 0xFF. -/
def addr_low (address : Nat) : Nat :=
  address &&& 0xFF

/-- Decoded chip metadata, the dict returned by read_chip_info. -/
structure ChipInfo where
  signature : List Nat
  page_size : Nat
  flash_size : Nat
  eeprom_size : Nat
deriving DecidableEq

/-- Big-endian word value of a byte list; on a two-byte list this is
struct.unpack with format >H. -/
def beWord (l : List Nat) : Nat :=
  l.foldl (fun acc b => acc * 256 + b) 0

/-- The decode step of read_chip_info: bytes 0..2 are the signature, byte 3
the page size, bytes 4..5 the big-endian flash size and bytes 6..7 the
big-endian EEPROM size.  (The source indexes data[3] directly; the driver
always reads exactly 8 bytes, so the default of getD is never used there.) -/
def decode_chip_info (data : List Nat) : ChipInfo :=
  { signature := data.take 3
    page_size := data.getD 3 0
    flash_size := beWord ((data.drop 4).take 2)
    eeprom_size := beWord ((data.drop 6).take 2) }

/-- read_chip_info: write the query [0x02, 0x00, 0x00, 0x00], read 8 bytes,
decode them. -/
def TwiBootloader.read_chip_info (b : TwiBootloader) (s : ProxyState) :
    ChipInfo × ProxyState :=
  let s1 := i2c_write b.bootloader_address [0x02, 0x00, 0x00, 0x00] s
  let r := i2c_read b.dev b.bootloader_address 8 s1
  (decode_chip_info r.1, r.2)

/-- read_flash: write the command [0x02, 0x01, addrh, addrl], then read
n_bytes bytes. -/
def TwiBootloader.read_flash (b : TwiBootloader) (address n_bytes : Nat)
    (s : ProxyState) : List Nat × ProxyState :=
  let s1 := i2c_write b.bootloader_address
    [0x02, 0x01, addr_high address, addr_low address] s
  i2c_read b.dev b.bootloader_address n_bytes s1

/-- read_eeprom: write the command [0x02, 0x02, addrh, addrl], then read
n_bytes bytes. -/
def TwiBootloader.read_eeprom (b : TwiBootloader) (address n_bytes : Nat)
    (s : ProxyState) : List Nat × ProxyState :=
  let s1 := i2c_write b.bootloader_address
    [0x02, 0x02, addr_high address, addr_low address] s
  i2c_read b.dev b.bootloader_address n_bytes s1

/-- write_flash: issue a single write transaction carrying
[0x02, 0x01, addrh, addrl] followed by the page bytes.  (The byte-source
normalisation _data_as_list of the source is identity here because payloads
are already byte lists.) -/
def TwiBootloader.write_flash (b : TwiBootloader) (address : Nat)
    (page : List Nat) (s : ProxyState) : ProxyState :=
  i2c_write b.bootloader_address
    ([0x02, 0x01, addr_high address, addr_low address] ++ page) s

/-- write_eeprom: issue a single write transaction carrying
[0x02, 0x02, addrh, addrl] followed by the data bytes. -/
def TwiBootloader.write_eeprom (b : TwiBootloader) (address : Nat)
    (data : List Nat) (s : ProxyState) : ProxyState :=
  i2c_write b.bootloader_address
    ([0x02, 0x02, addr_high address, addr_low address] ++ data) s

/-- Python-level failure modes of load_pages: IndexError from pages[-1] on
an empty page list, ValueError from a zero step in range. -/
inductive PyErr where
  | indexError
  | valueError
deriving DecidableEq

/-- Chunking of the byte list into consecutive page_size slices, mirroring
the comprehension over range(0, len(data_bytes), page_size): slice i is
data_bytes[i : i + page_size].  Recursion is by fuel, which equals the
length of the byte list at the top call; for page_size > 0 each step drops
at least one byte, so the fuel is never exhausted before the list is. -/
def chunksGo (ps : Nat) : Nat → List Nat → List (List Nat)
  | _, [] => []
  | 0, _ :: _ => []
  | fuel + 1, a :: l => (a :: l).take ps :: chunksGo ps fuel ((a :: l).drop ps)

/-- All consecutive page_size slices of the byte list. -/
def chunkList (ps : Nat) (data : List Nat) : List (List Nat) :=
  chunksGo ps data.length data

/-- Concatenation of a list of byte lists (itertools.chain over pages). -/
def concatBytes : List (List Nat) → List Nat
  | [] => []
  | p :: ps => p ++ concatBytes ps

/-- load_pages, starting from the concatenated data bytes of the
record-type-0 records of the parsed HEX file: split into page_size slices,
then pad the end of the last page with 0xFF to the full page size.
With page_size = 0 the source raises ValueError (range step 0); with no
data bytes it raises IndexError (pages[-1] on an empty list). -/
def load_pages (page_size : Nat) (data_bytes : List Nat) :
    Except PyErr (List (List Nat)) :=
  if page_size = 0 then Except.error PyErr.valueError
  else
    let pages := chunkList page_size data_bytes
    match pages.getLast? with
    | none => Except.error PyErr.indexError
    | some last =>
      Except.ok (pages.dropLast ++
        [last ++ List.replicate (page_size - last.length) 0xFF])

/-- Failure modes of write_firmware: a load_pages failure propagates, and an
exhausted per-page retry schedule raises IOError with a fixed message. -/
inductive WErr where
  | pyError (e : PyErr)
  | ioError (msg : String)
deriving DecidableEq

/-- The message of the IOError raised when all attempted delay durations
fail to verify a page.  It is a fixed string: in particular it does not
mention the index of the failing page. -/
def pageWriteFailMsg : String :=
  "Page write failed to verify for **all** attempted delay durations."

/-- The body of the per-page retry loop of write_firmware, iterating over
the remaining entries of the delay schedule: write the page at
i * page_size, sleep; if verify is off, stop with success; otherwise read
the page back, sleep, and compare byte-for-byte (list equality, matching
the NumPy elementwise comparison with the AttributeError catch for length
mismatches).  Returns whether some attempt succeeded, with the updated
proxy state. -/
def verifyLoop (b : TwiBootloader) (page_size i : Nat) (page_i : List Nat)
    (verify : Bool) : Nat → ProxyState → Bool × ProxyState
  | 0, s => (false, s)
  | n + 1, s =>
    let s1 := b.write_flash (i * page_size) page_i s
    if !verify then (true, s1)
    else
      let r := b.read_flash (i * page_size) page_size s1
      if r.1 = page_i then (true, r.2)
      else verifyLoop b page_size i page_i verify n r.2

/-- The outer loop of write_firmware over the enumerated pages: each page
gets up to 10 attempts (the number of entries of the delay schedule,
np.logspace with num = 10); if no attempt verifies, the loop raises the
IOError and later pages are not reached. -/
def pagesLoop (b : TwiBootloader) (page_size : Nat) (verify : Bool) :
    Nat → List (List Nat) → ProxyState → Except WErr Unit × ProxyState
  | _, [], s => (Except.ok (), s)
  | i, p :: rest, s =>
    match verifyLoop b page_size i p verify 10 s with
    | (true, s1) => pagesLoop b page_size verify (i + 1) rest s1
    | (false, s1) => (Except.error (WErr.ioError pageWriteFailMsg), s1)

/-- write_firmware: query the chip info for the page size, split the
firmware data bytes into pages, then write (and, when verify is set,
verify with up to 10 attempts) each page in ascending index order at
address index * page_size. -/
def TwiBootloader.write_firmware (b : TwiBootloader)
    (firmware_data : List Nat) (verify : Bool) (s : ProxyState) :
    Except WErr Unit × ProxyState :=
  let ci := b.read_chip_info s
  match load_pages ci.1.page_size firmware_data with
  | Except.error e => (Except.error (WErr.pyError e), ci.2)
  | Except.ok pages => pagesLoop b ci.1.page_size verify 0 pages ci.2

/-- The command bytes preceding a flash write or read at a given address. -/
def flashCmd (address : Nat) : List Nat :=
  [0x02, 0x01, addr_high address, addr_low address]

/-- The two transactions issued by read_chip_info. -/
def ciTxs (a : Nat) : List Tx :=
  [Tx.write a [0x02, 0x00, 0x00, 0x00], Tx.read a 8]

/-- The three transactions of one verify attempt for a page at the given
flash address: the page write, the read command and the read of n bytes.
Every attempt for a fixed page issues exactly these transactions, whether
or not the read-back matches. -/
def attemptTxs (a address n : Nat) (p : List Nat) : List Tx :=
  [Tx.write a (flashCmd address ++ p), Tx.write a (flashCmd address),
   Tx.read a n]

/-- c copies of a transaction block, concatenated. -/
def repeatTxs (c : Nat) (blk : List Tx) : List Tx :=
  match c with
  | 0 => []
  | c + 1 => blk ++ repeatTxs c blk

/-- The trace produced by the verify loop on consecutive pages starting at
index i, when page number k of the processed ones consumes counts[k]
attempts: for each processed page, its attempt block repeated that many
times, at address index * page_size.  Processing stops when either list
runs out. -/
def blocksTrace (a ps : Nat) : Nat → List (List Nat) → List Nat → List Tx
  | _, [], _ => []
  | _, _ :: _, [] => []
  | i, p :: rest, c :: cs =>
    repeatTxs c (attemptTxs a (i * ps) ps p) ++ blocksTrace a ps (i + 1) rest cs

/-- max_delay of write_firmware: at most 100 times the nominal delay, and
at least one second. -/
noncomputable def max_delay (delay_s : ℝ) : ℝ :=
  max 1 (100 * delay_s)

/-- np.logspace over the reals: num samples of base 10 raised to the
linearly spaced exponents from start to stop inclusive. -/
noncomputable def logspace (start stop : ℝ) (num : Nat) : List ℝ :=
  (List.range num).map fun i : Nat =>
    (10 : ℝ) ^ (start + (i : ℝ) * ((stop - start) / ((num : ℝ) - 1)))

/-- The delay schedule of write_firmware: np.logspace from log10(delay_s)
to log10(max_delay) with num = 10 and base 10. -/
noncomputable def delay_durations (delay_s : ℝ) : List ℝ :=
  logspace (Real.log delay_s / Real.log 10)
    (Real.log (max_delay delay_s) / Real.log 10) 10

/-- A chip-info reply used by the mock devices: signature [1, 2, 3],
page size 2, flash size 64, EEPROM size 64. -/
def chipReply8 : List Nat :=
  [0x01, 0x02, 0x03, 0x02, 0x00, 0x40, 0x00, 0x40]

/-- Mock device whose read-backs never match any written page: chip-info
queries (8-byte reads) get the chip reply, every other read returns
zeroes. -/
def mismatchDev : Device :=
  ⟨fun _ _ n => if n = 8 then chipReply8 else List.replicate n 0⟩

/-- Mock device returning the chip-info reply of the worked decode example
to every read. -/
def chipInfoDev : Device :=
  ⟨fun _ _ _ => [0x01, 0x02, 0x03, 0x80, 0x04, 0x00, 0x02, 0x00]⟩

/-- Mock device answering every read with sevens; its replies do not depend
on the trace. -/
def constDev : Device :=
  ⟨fun _ _ n => List.replicate n 7⟩

/-- Recognise a flash page write transaction and extract its address bytes
and its (nonempty) payload. -/
def pagePayload (tx : Tx) : Option (Nat × Nat × List Nat) :=
  match tx with
  | Tx.read _ _ => none
  | Tx.write _ bytes =>
    match bytes with
    | c0 :: c1 :: h :: l :: b :: bs =>
      if c0 = 2 ∧ c1 = 1 then some (h, l, b :: bs) else none
    | _ => none

/-- Recognise a flash read command transaction (the four command bytes with
no payload) and extract its address bytes. -/
def readCmdAddr (tx : Tx) : Option (Nat × Nat) :=
  match tx with
  | Tx.read _ _ => none
  | Tx.write _ bytes =>
    match bytes with
    | c0 :: c1 :: h :: l :: [] =>
      if c0 = 2 ∧ c1 = 1 then some (h, l) else none
    | _ => none

/-- The payload of the most recent flash page write at the given address
bytes, searching a reversed trace front to back. -/
def lastPageWrite (h l : Nat) : List Tx → Option (List Nat)
  | [] => none
  | tx :: rest =>
    match pagePayload tx with
    | some (h', l', p) =>
      if h' = h ∧ l' = l then some p else lastPageWrite h l rest
    | none => lastPageWrite h l rest

/-- Mock flash device: chip-info queries (8-byte reads) get the chip reply;
a read following a flash read command returns exactly the bytes last
written to that page address; any other read returns nothing. -/
def echoDev : Device :=
  ⟨fun t _ n =>
    if n = 8 then chipReply8
    else
      match t.getLast?.bind readCmdAddr with
      | some (h, l) => (lastPageWrite h l t.reverse).getD []
      | none => []⟩

/-- Mock device that echoes the first page (the page at address bytes
(0, 0)) but returns mismatching bytes for every other page address, making
the write of the second page fail permanently. -/
def failSecondDev : Device :=
  ⟨fun t _ n =>
    if n = 8 then chipReply8
    else
      match t.getLast?.bind readCmdAddr with
      | some (h, l) => if h = 0 ∧ l = 0 then [1, 2] else [0, 0]
      | none => []⟩

/-! ### General lemmas about the page loader -/

theorem concatBytes_append (l1 l2 : List (List Nat)) :
    concatBytes (l1 ++ l2) = concatBytes l1 ++ concatBytes l2 := by
  induction l1 with
  | nil => rfl
  | cons p t ih => simp [concatBytes, ih]

theorem getLast?_cons_ne_nil {α : Type} (x : α) {l : List α} (h : l ≠ []) :
    (x :: l).getLast? = l.getLast? := by
  cases l with
  | nil => exact absurd rfl h
  | cons b t => exact List.getLast?_cons_cons

theorem dropLast_append_getLast?_self {α : Type} :
    ∀ {l : List α} {x : α}, l.getLast? = some x → l.dropLast ++ [x] = l := by
  intro l
  induction l with
  | nil => intro x h; simp at h
  | cons a t ih =>
    intro x h
    cases t with
    | nil => simp_all [List.getLast?_singleton]
    | cons b u =>
      rw [List.getLast?_cons_cons] at h
      simpa using ih h

theorem chunksGo_concat (ps : Nat) (hps : 0 < ps) :
    ∀ (fuel : Nat) (l : List Nat), l.length ≤ fuel →
      concatBytes (chunksGo ps fuel l) = l := by
  intro fuel
  induction fuel with
  | zero =>
    intro l hl
    have : l = [] := List.eq_nil_of_length_eq_zero (Nat.le_zero.mp hl)
    subst this; rfl
  | succ f ih =>
    intro l hl
    cases l with
    | nil => rfl
    | cons a t =>
      simp only [chunksGo, concatBytes]
      rw [ih ((a :: t).drop ps) (by simp [List.length_drop] at hl ⊢; omega)]
      exact List.take_append_drop ps (a :: t)

theorem chunksGo_getLast? (ps : Nat) (hps : 0 < ps) :
    ∀ (fuel : Nat) (l : List Nat), l.length ≤ fuel → l ≠ [] →
      ∃ last, (chunksGo ps fuel l).getLast? = some last ∧
        0 < last.length ∧ last.length ≤ ps := by
  intro fuel
  induction fuel with
  | zero =>
    intro l hl hne
    exact absurd (List.eq_nil_of_length_eq_zero (Nat.le_zero.mp hl)) hne
  | succ f ih =>
    intro l hl hne
    cases l with
    | nil => exact absurd rfl hne
    | cons a t =>
      by_cases hd : (a :: t).drop ps = []
      · have hrec : chunksGo ps f ((a :: t).drop ps) = [] := by
          rw [hd]; cases f <;> rfl
        refine ⟨(a :: t).take ps, ?_, ?_, ?_⟩
        · simp [chunksGo, hrec]
        · simp [List.length_take]; omega
        · simp [List.length_take]
      · obtain ⟨last, h1, h2, h3⟩ :=
          ih ((a :: t).drop ps) (by simp [List.length_drop] at hl ⊢; omega) hd
        refine ⟨last, ?_, h2, h3⟩
        have hne2 : chunksGo ps f ((a :: t).drop ps) ≠ [] := by
          intro heq; rw [heq] at h1; simp at h1
        simp only [chunksGo]
        rw [getLast?_cons_ne_nil _ hne2, h1]

/-! ### Claims C1 and C10: page splitting and padding -/

/-- Claim C1, counterexample to the universally quantified form: for the
empty byte sequence no page list is produced at all; load_pages fails with
the IndexError raised by the final-page padding step. -/
theorem load_pages_empty_input_fails :
    load_pages 1 [] = Except.error PyErr.indexError := rfl

/-- Claim C1 (amended to nonempty input): for every page_size > 0 and
every nonempty byte sequence S, load_pages returns a page list whose
concatenation truncated to the length of S reproduces S, and whose final
page has length exactly page_size. -/
theorem load_pages_pad_roundtrip (page_size : Nat) (S : List Nat)
    (hps : 0 < page_size) (hS : S ≠ []) :
    ∃ pages last, load_pages page_size S = Except.ok pages ∧
      (concatBytes pages).take S.length = S ∧
      pages.getLast? = some last ∧ last.length = page_size := by
  obtain ⟨last0, h1, h2, h3⟩ :=
    chunksGo_getLast? page_size hps S.length S le_rfl hS
  have h1' : (chunkList page_size S).getLast? = some last0 := h1
  have hconcat : concatBytes (chunkList page_size S) = S :=
    chunksGo_concat page_size hps S.length S le_rfl
  have hload : load_pages page_size S =
      Except.ok ((chunkList page_size S).dropLast ++
        [last0 ++ List.replicate (page_size - last0.length) 0xFF]) := by
    simp only [load_pages, if_neg hps.ne', h1']
  have hsplit : (chunkList page_size S).dropLast ++ [last0] =
      chunkList page_size S := dropLast_append_getLast?_self h1'
  have hS' : concatBytes ((chunkList page_size S).dropLast) ++ last0 = S := by
    have := congrArg concatBytes hsplit
    simpa [concatBytes_append, concatBytes, hconcat] using this
  refine ⟨_, _, hload, ?_, List.getLast?_concat _, ?_⟩
  · have hlen : (concatBytes ((chunkList page_size S).dropLast) ++ last0).length
        = S.length := by rw [hS']
    calc (concatBytes ((chunkList page_size S).dropLast ++
            [last0 ++ List.replicate (page_size - last0.length) 0xFF])).take S.length
        = ((concatBytes ((chunkList page_size S).dropLast) ++ last0) ++
            List.replicate (page_size - last0.length) 0xFF).take S.length := by
          simp [concatBytes_append, concatBytes]
      _ = concatBytes ((chunkList page_size S).dropLast) ++ last0 :=
          List.take_left' hlen
      _ = S := hS'
  · simp [List.length_append, List.length_replicate]; omega

/-- Claim C1 witness: page size 2 and bytes [1, 2, 3]. -/
theorem load_pages_pad_roundtrip_witness :
    0 < 2 ∧ ([1, 2, 3] : List Nat) ≠ [] ∧
    ∃ pages last, load_pages 2 [1, 2, 3] = Except.ok pages ∧
      (concatBytes pages).take 3 = [1, 2, 3] ∧
      pages.getLast? = some last ∧ last.length = 2 :=
  ⟨by decide, by decide, load_pages_pad_roundtrip 2 [1, 2, 3] (by decide) (by decide)⟩

/-- Claim C10, counterexample to the for-every-page_size form: with
page_size = 0 the failure on empty input is the ValueError raised by the
zero step of range, not an out-of-range IndexError. -/
theorem load_pages_zero_page_size_value_error :
    load_pages 0 [] = Except.error PyErr.valueError ∧
    (Except.error PyErr.valueError : Except PyErr (List (List Nat)))
      ≠ Except.error PyErr.indexError := by
  refine ⟨rfl, ?_⟩
  intro h
  injection h with h2
  exact PyErr.noConfusion h2

/-- Claim C10 (amended to page_size > 0): on an image with zero data bytes
load_pages never returns a page list; for every positive page_size it fails
with the out-of-range IndexError from the unconditional access to the last
page. -/
theorem load_pages_empty_index_error (page_size : Nat) (h : 0 < page_size) :
    load_pages page_size [] = Except.error PyErr.indexError := by
  simp only [load_pages, if_neg h.ne']
  rfl

/-- Claim C10 witness: page size 1. -/
theorem load_pages_empty_index_error_witness :
    0 < 1 ∧ load_pages 1 [] = Except.error PyErr.indexError :=
  ⟨Nat.one_pos, load_pages_empty_index_error 1 Nat.one_pos⟩

/-! ### Claim C5: chip-info decoding -/

/-- Claim C5: when the device answers the chip-info query with the 8 bytes
b0..b7, read_chip_info returns signature [b0, b1, b2], page size b3,
big-endian flash size b4 * 256 + b5 and big-endian EEPROM size
b6 * 256 + b7. -/
theorem read_chip_info_decode_spec (dev : Device) (a : Nat) (s : ProxyState)
    (b0 b1 b2 b3 b4 b5 b6 b7 : Nat)
    (h : dev.respond (s.trace ++ [Tx.write a [0x02, 0x00, 0x00, 0x00]]) a 8
      = [b0, b1, b2, b3, b4, b5, b6, b7]) :
    ((TwiBootloader.mk dev a).read_chip_info s).1
      = ⟨[b0, b1, b2], b3, b4 * 256 + b5, b6 * 256 + b7⟩ := by
  simp [TwiBootloader.read_chip_info, i2c_write, i2c_read, h,
    decode_chip_info, beWord]

/-- Claim C5 witness: the reply [0x01, 0x02, 0x03, 0x80, 0x04, 0x00, 0x02,
0x00] decodes to signature [1, 2, 3], page size 128, flash size 1024 and
EEPROM size 512. -/
theorem read_chip_info_decode_spec_witness :
    chipInfoDev.respond
        ((ProxyState.mk []).trace ++ [Tx.write 0x29 [0x02, 0x00, 0x00, 0x00]])
        0x29 8 = [0x01, 0x02, 0x03, 0x80, 0x04, 0x00, 0x02, 0x00] ∧
    ((TwiBootloader.mk chipInfoDev 0x29).read_chip_info (ProxyState.mk [])).1
      = ⟨[1, 2, 3], 128, 1024, 512⟩ :=
  ⟨rfl, by
    simpa using read_chip_info_decode_spec chipInfoDev 0x29 (ProxyState.mk [])
      1 2 3 128 4 0 2 0 rfl⟩

/-! ### Claim C6: write_flash and write_eeprom issue one write transaction -/

/-- Claim C6: for every address and payload, write_flash appends exactly one
transaction to the trace, a write of [0x02, 0x01, addr_high, addr_low]
followed by the payload, and write_eeprom likewise with region code 0x02;
since the appended transaction is a single write, neither operation
performs a read. -/
theorem write_flash_eeprom_single_write_tx (dev : Device) (a address : Nat)
    (payload : List Nat) (s : ProxyState) :
    (TwiBootloader.mk dev a).write_flash address payload s
      = ⟨s.trace ++ [Tx.write a
          ([0x02, 0x01, addr_high address, addr_low address] ++ payload)]⟩ ∧
    (TwiBootloader.mk dev a).write_eeprom address payload s
      = ⟨s.trace ++ [Tx.write a
          ([0x02, 0x02, addr_high address, addr_low address] ++ payload)]⟩ :=
  ⟨rfl, rfl⟩

/-! ### Claim C7: address byte encoding round-trips -/

theorem shiftLeft_or_eq_add (x y : Nat) (hy : y < 2 ^ 8) :
    x <<< 8 ||| y = x <<< 8 + y := by
  apply Nat.eq_of_testBit_eq
  intro i
  rw [Nat.shiftLeft_eq, Nat.mul_comm, Nat.testBit_or,
    Nat.testBit_mul_pow_two_add x hy i, Nat.testBit_mul_pow_two]
  rcases Nat.lt_or_ge i 8 with hi | hi
  · simp [hi, Nat.not_le_of_lt hi]
  · have hfalse : y.testBit i = false :=
      Nat.testBit_lt_two_pow
        (Nat.lt_of_lt_of_le hy (Nat.pow_le_pow_right (by norm_num) hi))
    simp [hi, Nat.not_lt_of_le hi, hfalse]

/-- Claim C7: for every address up to 65535, the high byte used by the
codec equals address >>> 8, the low byte equals address &&& 0xFF, and
recombining the two wire bytes reproduces the address. -/
theorem address_encoding_roundtrip (address : Nat) (h : address ≤ 65535) :
    addr_high address = address >>> 8 ∧
    addr_low address = address &&& 0xFF ∧
    addr_high address <<< 8 ||| addr_low address = address := by
  have h1 : address >>> 8 = address / 256 := by
    rw [Nat.shiftRight_eq_div_pow]
  have h2 : addr_high address = address / 256 := by
    unfold addr_high
    rw [h1, show (0xFF : Nat) = 2 ^ 8 - 1 from rfl,
      Nat.and_pow_two_sub_one_eq_mod]
    exact Nat.mod_eq_of_lt (by omega)
  have h3 : addr_low address = address % 256 := by
    unfold addr_low
    rw [show (0xFF : Nat) = 2 ^ 8 - 1 from rfl,
      Nat.and_pow_two_sub_one_eq_mod]
  refine ⟨by rw [h2, h1], rfl, ?_⟩
  rw [shiftLeft_or_eq_add _ _ (by rw [h3]; exact Nat.mod_lt _ (by norm_num)),
    Nat.shiftLeft_eq, h2, h3]
  have := Nat.div_add_mod address 256
  norm_num
  omega

/-- Claim C7 witness: address 0xABCD. -/
theorem address_encoding_roundtrip_witness :
    (0xABCD : Nat) ≤ 65535 ∧
    (addr_high 0xABCD = 0xABCD >>> 8 ∧
     addr_low 0xABCD = 0xABCD &&& 0xFF ∧
     addr_high 0xABCD <<< 8 ||| addr_low 0xABCD = 0xABCD) :=
  ⟨by decide, address_encoding_roundtrip 0xABCD (by decide)⟩

/-! ### Claim C9: read_chip_info is idempotent -/

/-- Claim C9: when the device gives the same chip-info reply to the second
query as to the first (its reply does not change between the queries, with
no intervening writes besides the query commands themselves), two
consecutive read_chip_info calls return identical results. -/
theorem read_chip_info_idempotent (dev : Device) (a : Nat) (s : ProxyState)
    (h : dev.respond
        (((TwiBootloader.mk dev a).read_chip_info s).2.trace
          ++ [Tx.write a [0x02, 0x00, 0x00, 0x00]]) a 8
      = dev.respond (s.trace ++ [Tx.write a [0x02, 0x00, 0x00, 0x00]]) a 8) :
    ((TwiBootloader.mk dev a).read_chip_info
        ((TwiBootloader.mk dev a).read_chip_info s).2).1
      = ((TwiBootloader.mk dev a).read_chip_info s).1 := by
  simp only [TwiBootloader.read_chip_info, i2c_write, i2c_read] at h ⊢
  rw [h]

/-- Claim C9 witness: a device whose replies do not depend on the trace. -/
theorem read_chip_info_idempotent_witness :
    constDev.respond
        (((TwiBootloader.mk constDev 0x29).read_chip_info
            (ProxyState.mk [])).2.trace
          ++ [Tx.write 0x29 [0x02, 0x00, 0x00, 0x00]]) 0x29 8
      = constDev.respond
        ((ProxyState.mk []).trace ++ [Tx.write 0x29 [0x02, 0x00, 0x00, 0x00]])
        0x29 8 ∧
    ((TwiBootloader.mk constDev 0x29).read_chip_info
        ((TwiBootloader.mk constDev 0x29).read_chip_info
          (ProxyState.mk [])).2).1
      = ((TwiBootloader.mk constDev 0x29).read_chip_info (ProxyState.mk [])).1 :=
  ⟨rfl, read_chip_info_idempotent constDev 0x29 (ProxyState.mk []) rfl⟩

/-! ### General lemmas about the write and verify loops -/

theorem mem_of_getLast?_eq {α : Type} {l : List α} {x : α}
    (h : l.getLast? = some x) : x ∈ l := by
  rw [← dropLast_append_getLast?_self h]
  exact List.mem_append_right _ (List.mem_singleton_self x)

theorem chunksGo_mem_ne_nil (ps : Nat) (hps : 0 < ps) :
    ∀ (fuel : Nat) (l : List Nat), ∀ p ∈ chunksGo ps fuel l, p ≠ [] := by
  intro fuel
  induction fuel with
  | zero =>
    intro l p hp
    cases l <;> simp [chunksGo] at hp
  | succ f ih =>
    intro l p hp
    cases l with
    | nil => simp [chunksGo] at hp
    | cons a t =>
      simp only [chunksGo, List.mem_cons] at hp
      rcases hp with hp | hp
      · obtain ⟨k, rfl⟩ := Nat.exists_eq_succ_of_ne_zero hps.ne'
        subst hp
        simp [List.take_cons]
      · exact ih _ p hp


theorem load_pages_mem_ne_nil (ps : Nat) (fw : List Nat)
    (pages : List (List Nat)) (hps : 0 < ps)
    (hload : load_pages ps fw = Except.ok pages) : ∀ p ∈ pages, p ≠ [] := by
  intro p hp
  cases hl : (chunkList ps fw).getLast? with
  | none =>
    simp only [load_pages, if_neg hps.ne', hl] at hload
    exact absurd hload (by simp)
  | some last =>
    simp only [load_pages, if_neg hps.ne', hl, Except.ok.injEq] at hload
    subst hload
    rcases List.mem_append.mp hp with hmem | hmem
    · have : p ∈ (chunkList ps fw).dropLast ++ [last] :=
        List.mem_append_left _ hmem
      rw [dropLast_append_getLast?_self hl] at this
      exact chunksGo_mem_ne_nil ps hps _ _ p this
    · have hlast : last ≠ [] :=
        chunksGo_mem_ne_nil ps hps _ _ last (mem_of_getLast?_eq hl)
      rw [List.mem_singleton.mp hmem]
      simp [hlast]

theorem verifyLoop_succ (b : TwiBootloader) (ps i : Nat) (p : List Nat)
    (n : Nat) (s : ProxyState) :
    verifyLoop b ps i p true (n + 1) s =
      if b.dev.respond (s.trace ++
          [Tx.write b.bootloader_address (flashCmd (i * ps) ++ p),
           Tx.write b.bootloader_address (flashCmd (i * ps))])
          b.bootloader_address ps = p
      then (true, ⟨s.trace ++ attemptTxs b.bootloader_address (i * ps) ps p⟩)
      else verifyLoop b ps i p true n
        ⟨s.trace ++ attemptTxs b.bootloader_address (i * ps) ps p⟩ := by
  simp only [verifyLoop, TwiBootloader.write_flash, TwiBootloader.read_flash,
    i2c_write, i2c_read, Bool.not_true, Bool.false_eq_true, if_false,
    attemptTxs, flashCmd, List.append_assoc, List.cons_append,
    List.singleton_append, List.nil_append]

theorem verifyLoop_allFail (b : TwiBootloader) (ps i : Nat) (p : List Nat)
    (hmis : ∀ t, b.dev.respond t b.bootloader_address ps ≠ p) :
    ∀ (n : Nat) (s : ProxyState), verifyLoop b ps i p true n s
      = (false, ⟨s.trace ++
          repeatTxs n (attemptTxs b.bootloader_address (i * ps) ps p)⟩) := by
  intro n
  induction n with
  | zero => intro s; simp [verifyLoop, repeatTxs]
  | succ m ih =>
    intro s
    rw [verifyLoop_succ, if_neg (hmis _), ih]
    simp [repeatTxs, List.append_assoc]

theorem verifyLoop_characterize (b : TwiBootloader) (ps i : Nat)
    (p : List Nat) : ∀ (n : Nat) (s : ProxyState), ∃ c, c ≤ n ∧
      (verifyLoop b ps i p true n s).2.trace = s.trace ++
        repeatTxs c (attemptTxs b.bootloader_address (i * ps) ps p) ∧
      ((verifyLoop b ps i p true n s).1 = true → 1 ≤ c) ∧
      ((verifyLoop b ps i p true n s).1 = false → c = n) := by
  intro n
  induction n with
  | zero =>
    intro s
    exact ⟨0, le_rfl, by simp [verifyLoop, repeatTxs], by simp [verifyLoop],
      fun _ => rfl⟩
  | succ m ih =>
    intro s
    rw [verifyLoop_succ]
    by_cases hv : b.dev.respond (s.trace ++
        [Tx.write b.bootloader_address (flashCmd (i * ps) ++ p),
         Tx.write b.bootloader_address (flashCmd (i * ps))])
        b.bootloader_address ps = p
    · rw [if_pos hv]
      refine ⟨1, by omega, ?_, fun _ => le_rfl, by simp⟩
      simp [repeatTxs, attemptTxs, List.append_assoc]
    · rw [if_neg hv]
      obtain ⟨c, hc, htr, hct, hcf⟩ :=
        ih ⟨s.trace ++ attemptTxs b.bootloader_address (i * ps) ps p⟩
      refine ⟨c + 1, by omega, ?_, fun _ => by omega, fun hf => by
        have := hcf hf; omega⟩
      rw [htr]
      simp [repeatTxs, List.append_assoc]

theorem blocksTrace_nil_counts (a ps i : Nat) (pages : List (List Nat)) :
    blocksTrace a ps i pages [] = [] := by
  cases pages <;> rfl

theorem pagesLoop_cons (b : TwiBootloader) (ps : Nat) (verify : Bool)
    (i : Nat) (p : List Nat) (rest : List (List Nat)) (s : ProxyState) :
    pagesLoop b ps verify i (p :: rest) s =
      match verifyLoop b ps i p verify 10 s with
      | (true, s1) => pagesLoop b ps verify (i + 1) rest s1
      | (false, s1) => (Except.error (WErr.ioError pageWriteFailMsg), s1) :=
  rfl

theorem pagesLoop_cons_true (b : TwiBootloader) (ps : Nat) (verify : Bool)
    (i : Nat) (p : List Nat) (rest : List (List Nat)) (s s1 : ProxyState)
    (h : verifyLoop b ps i p verify 10 s = (true, s1)) :
    pagesLoop b ps verify i (p :: rest) s
      = pagesLoop b ps verify (i + 1) rest s1 := by
  rw [pagesLoop_cons, h]

theorem pagesLoop_cons_false (b : TwiBootloader) (ps : Nat) (verify : Bool)
    (i : Nat) (p : List Nat) (rest : List (List Nat)) (s s1 : ProxyState)
    (h : verifyLoop b ps i p verify 10 s = (false, s1)) :
    pagesLoop b ps verify i (p :: rest) s
      = (Except.error (WErr.ioError pageWriteFailMsg), s1) := by
  rw [pagesLoop_cons, h]

theorem pagesLoop_characterize (b : TwiBootloader) (ps : Nat) :
    ∀ (pages : List (List Nat)) (i : Nat) (s : ProxyState),
      ∃ counts : List Nat,
        (∀ c ∈ counts, 1 ≤ c ∧ c ≤ 10) ∧
        (pagesLoop b ps true i pages s).2.trace
          = s.trace ++ blocksTrace b.bootloader_address ps i pages counts ∧
        (((pagesLoop b ps true i pages s).1 = Except.ok ()
            ∧ counts.length = pages.length)
         ∨ ((pagesLoop b ps true i pages s).1
              = Except.error (WErr.ioError pageWriteFailMsg)
            ∧ counts.length ≤ pages.length ∧ counts.getLast? = some 10)) := by
  intro pages
  induction pages with
  | nil =>
    intro i s
    exact ⟨[], by simp, by simp [pagesLoop, blocksTrace], Or.inl ⟨rfl, rfl⟩⟩
  | cons p rest ih =>
    intro i s
    obtain ⟨c, hc10, htr, hct, hcf⟩ := verifyLoop_characterize b ps i p 10 s
    cases hfst : (verifyLoop b ps i p true 10 s).1 with
    | true =>
      have hpair : verifyLoop b ps i p true 10 s
          = (true, (verifyLoop b ps i p true 10 s).2) := Prod.ext hfst rfl
      obtain ⟨counts, hmem, htr2, hres⟩ :=
        ih (i + 1) (verifyLoop b ps i p true 10 s).2
      rw [pagesLoop_cons_true b ps true i p rest s _ hpair]
      refine ⟨c :: counts, ?_, ?_, ?_⟩
      · intro x hx
        rcases List.mem_cons.mp hx with rfl | hx
        · exact ⟨hct hfst, hc10⟩
        · exact hmem x hx
      · rw [htr2, htr]
        simp [blocksTrace, List.append_assoc]
      · rcases hres with ⟨hok, hlen⟩ | ⟨herr, hlen, hlast⟩
        · exact Or.inl ⟨hok, by simp [hlen]⟩
        · refine Or.inr ⟨herr, by simp only [List.length_cons]; omega, ?_⟩
          have hne : counts ≠ [] := by
            intro h0; rw [h0] at hlast; simp at hlast
          rw [getLast?_cons_ne_nil _ hne, hlast]
    | false =>
      have hpair : verifyLoop b ps i p true 10 s
          = (false, (verifyLoop b ps i p true 10 s).2) := Prod.ext hfst rfl
      rw [pagesLoop_cons_false b ps true i p rest s _ hpair]
      refine ⟨[10], by decide, ?_, Or.inr ⟨rfl, by simp, rfl⟩⟩
      rw [show ((Except.error (WErr.ioError pageWriteFailMsg) : Except WErr Unit),
          (verifyLoop b ps i p true 10 s).2).2
          = (verifyLoop b ps i p true 10 s).2 from rfl, htr, hcf hfst]
      simp [blocksTrace, blocksTrace_nil_counts, List.append_assoc]

theorem write_firmware_unfold (dev : Device) (a : Nat) (fw : List Nat)
    (verify : Bool) (s : ProxyState) :
    (TwiBootloader.mk dev a).write_firmware fw verify s =
      match load_pages (decode_chip_info (dev.respond
          (s.trace ++ [Tx.write a [0x02, 0x00, 0x00, 0x00]]) a 8)).page_size fw with
      | Except.error e => (Except.error (WErr.pyError e), ⟨s.trace ++ ciTxs a⟩)
      | Except.ok pages =>
          pagesLoop (TwiBootloader.mk dev a)
            (decode_chip_info (dev.respond
              (s.trace ++ [Tx.write a [0x02, 0x00, 0x00, 0x00]]) a 8)).page_size
            verify 0 pages ⟨s.trace ++ ciTxs a⟩ := by
  simp only [TwiBootloader.write_firmware, TwiBootloader.read_chip_info,
    i2c_write, i2c_read, ciTxs, List.append_assoc, List.cons_append,
    List.singleton_append, List.nil_append]

/-! ### Claim C3: no partial success, abort at the first exhausted page -/

/-- Claim C3, counterexample to the error naming the failing page index:
two runs whose retry schedules exhaust at different pages, page 0 with a
device that never matches and page 1 with a device that echoes only the
first page, raise the same error value, the IOError with the fixed
message; an error naming the 0-based failing page index would have to
differ between the two runs.  The traces confirm where each run failed:
the first run issues only the ten attempt blocks of page 0; the second
issues one block for page 0 and ten for page 1. -/
theorem write_firmware_error_lacks_page_index :
    (TwiBootloader.mk mismatchDev 0x29).write_firmware [1, 2, 3] true ⟨[]⟩
      = (Except.error (WErr.ioError pageWriteFailMsg),
         ⟨ciTxs 0x29 ++ blocksTrace 0x29 2 0 [[1, 2], [3, 0xFF]] [10]⟩) ∧
    (TwiBootloader.mk failSecondDev 0x29).write_firmware [1, 2, 3] true ⟨[]⟩
      = (Except.error (WErr.ioError pageWriteFailMsg),
         ⟨ciTxs 0x29 ++ blocksTrace 0x29 2 0 [[1, 2], [3, 0xFF]] [1, 10]⟩) ∧
    ((TwiBootloader.mk mismatchDev 0x29).write_firmware [1, 2, 3] true ⟨[]⟩).1
      = ((TwiBootloader.mk failSecondDev 0x29).write_firmware
          [1, 2, 3] true ⟨[]⟩).1 :=
  ⟨rfl, rfl, rfl⟩

/-- Claim C3 (amended: the raised error is the fixed IOError message, which
does not name the failing page): for every device behaviour, once the
firmware pages are loaded, write_firmware with verification either
completes every page or raises the IOError on the first page whose
10-entry retry schedule is exhausted; the trace consists of the chip-info
query followed by per-page attempt blocks, in ascending page order at
address index * page_size, for an initial segment of the pages only, so no
page after the failing one is ever attempted. -/
theorem write_firmware_no_partial_success (dev : Device) (a : Nat)
    (s : ProxyState) (fw : List Nat) (pages : List (List Nat)) (ps : Nat)
    (hps : (decode_chip_info (dev.respond
        (s.trace ++ [Tx.write a [0x02, 0x00, 0x00, 0x00]]) a 8)).page_size = ps)
    (hload : load_pages ps fw = Except.ok pages) :
    ∃ counts : List Nat,
      (∀ c ∈ counts, 1 ≤ c ∧ c ≤ 10) ∧
      ((TwiBootloader.mk dev a).write_firmware fw true s).2.trace
        = s.trace ++ ciTxs a ++ blocksTrace a ps 0 pages counts ∧
      ((((TwiBootloader.mk dev a).write_firmware fw true s).1 = Except.ok ()
          ∧ counts.length = pages.length)
       ∨ (((TwiBootloader.mk dev a).write_firmware fw true s).1
            = Except.error (WErr.ioError pageWriteFailMsg)
          ∧ counts.length ≤ pages.length ∧ counts.getLast? = some 10)) := by
  have hwf : (TwiBootloader.mk dev a).write_firmware fw true s
      = pagesLoop (TwiBootloader.mk dev a) ps true 0 pages
          ⟨s.trace ++ ciTxs a⟩ := by
    rw [write_firmware_unfold, hps, hload]
  obtain ⟨counts, hmem, htr, hres⟩ :=
    pagesLoop_characterize (TwiBootloader.mk dev a) ps pages 0
      ⟨s.trace ++ ciTxs a⟩
  refine ⟨counts, hmem, ?_, ?_⟩
  · rw [hwf, htr]
  · rw [hwf]
    exact hres

/-- Claim C3 witness for the amended theorem: the run that echoes page 0
and exhausts the schedule at page 1. -/
theorem write_firmware_no_partial_success_witness :
    (decode_chip_info (failSecondDev.respond
        ((ProxyState.mk []).trace ++ [Tx.write 0x29 [0x02, 0x00, 0x00, 0x00]])
        0x29 8)).page_size = 2 ∧
    load_pages 2 [1, 2, 3] = Except.ok [[1, 2], [3, 0xFF]] ∧
    ∃ counts : List Nat,
      (∀ c ∈ counts, 1 ≤ c ∧ c ≤ 10) ∧
      ((TwiBootloader.mk failSecondDev 0x29).write_firmware
          [1, 2, 3] true (ProxyState.mk [])).2.trace
        = (ProxyState.mk []).trace ++ ciTxs 0x29
            ++ blocksTrace 0x29 2 0 [[1, 2], [3, 0xFF]] counts ∧
      ((((TwiBootloader.mk failSecondDev 0x29).write_firmware
            [1, 2, 3] true (ProxyState.mk [])).1 = Except.ok ()
          ∧ counts.length = 2)
       ∨ (((TwiBootloader.mk failSecondDev 0x29).write_firmware
            [1, 2, 3] true (ProxyState.mk [])).1
            = Except.error (WErr.ioError pageWriteFailMsg)
          ∧ counts.length ≤ 2 ∧ counts.getLast? = some 10)) :=
  ⟨rfl, rfl,
    write_firmware_no_partial_success failSecondDev 0x29 (ProxyState.mk [])
      [1, 2, 3] [[1, 2], [3, 0xFF]] 2 rfl rfl⟩

/-! ### Claim C2: permanent verify failure exhausts the schedule -/

/-- Claim C2: with a device whose read-backs never match the first page,
write_firmware with verification fails with the IOError raised on schedule
exhaustion, and its trace is exactly the chip-info query followed by ten
attempt blocks for the first page at address 0, one per delay-schedule
entry; in particular no write is issued for any later page. -/
theorem write_firmware_always_mismatch_exhausts (dev : Device) (a : Nat)
    (s : ProxyState) (fw : List Nat) (p0 : List Nat)
    (rest : List (List Nat)) (ps : Nat)
    (hps : (decode_chip_info (dev.respond
        (s.trace ++ [Tx.write a [0x02, 0x00, 0x00, 0x00]]) a 8)).page_size = ps)
    (hload : load_pages ps fw = Except.ok (p0 :: rest))
    (hmis : ∀ t, dev.respond t a ps ≠ p0) :
    (TwiBootloader.mk dev a).write_firmware fw true s
      = (Except.error (WErr.ioError pageWriteFailMsg),
         ⟨s.trace ++ ciTxs a ++ repeatTxs 10 (attemptTxs a 0 ps p0)⟩) := by
  have hwf : (TwiBootloader.mk dev a).write_firmware fw true s
      = pagesLoop (TwiBootloader.mk dev a) ps true 0 (p0 :: rest)
          ⟨s.trace ++ ciTxs a⟩ := by
    rw [write_firmware_unfold, hps, hload]
  have hvl := verifyLoop_allFail (TwiBootloader.mk dev a) ps 0 p0 hmis 10
    ⟨s.trace ++ ciTxs a⟩
  rw [hwf, pagesLoop_cons_false (TwiBootloader.mk dev a) ps true 0 p0 rest
    ⟨s.trace ++ ciTxs a⟩ _ hvl]
  simp [List.append_assoc]

/-- Claim C2 witness: the always-mismatching device on a two-page
firmware. -/
theorem write_firmware_always_mismatch_exhausts_witness :
    (decode_chip_info (mismatchDev.respond
        ((ProxyState.mk []).trace ++ [Tx.write 0x29 [0x02, 0x00, 0x00, 0x00]])
        0x29 8)).page_size = 2 ∧
    load_pages 2 [1, 2, 3] = Except.ok ([1, 2] :: [[3, 0xFF]]) ∧
    (TwiBootloader.mk mismatchDev 0x29).write_firmware
        [1, 2, 3] true (ProxyState.mk [])
      = (Except.error (WErr.ioError pageWriteFailMsg),
         ⟨(ProxyState.mk []).trace ++ ciTxs 0x29
           ++ repeatTxs 10 (attemptTxs 0x29 0 2 [1, 2])⟩) :=
  ⟨rfl, rfl,
    write_firmware_always_mismatch_exhausts mismatchDev 0x29
      (ProxyState.mk []) [1, 2, 3] [1, 2] [[3, 0xFF]] 2 rfl rfl
      (fun t => by simp [mismatchDev])⟩

/-! ### Claim C8: echoing device, every page verifies on the first try -/

theorem verifyLoop_firstSuccess (b : TwiBootloader) (ps i : Nat)
    (p : List Nat) (s : ProxyState)
    (hresp : b.dev.respond (s.trace ++
        [Tx.write b.bootloader_address (flashCmd (i * ps) ++ p),
         Tx.write b.bootloader_address (flashCmd (i * ps))])
        b.bootloader_address ps = p) :
    verifyLoop b ps i p true 10 s
      = (true, ⟨s.trace ++ attemptTxs b.bootloader_address (i * ps) ps p⟩) := by
  rw [show (10 : Nat) = 9 + 1 from rfl, verifyLoop_succ, if_pos hresp]

theorem pagesLoop_echo (b : TwiBootloader) (ps : Nat)
    (hecho : ∀ (t : List Tx) (h l : Nat) (q : List Nat), q ≠ [] →
      b.dev.respond (t ++
        [Tx.write b.bootloader_address ([0x02, 0x01, h, l] ++ q),
         Tx.write b.bootloader_address [0x02, 0x01, h, l]])
        b.bootloader_address ps = q) :
    ∀ (pages : List (List Nat)) (i : Nat) (s : ProxyState),
      (∀ p ∈ pages, p ≠ []) →
      pagesLoop b ps true i pages s
        = (Except.ok (), ⟨s.trace ++ blocksTrace b.bootloader_address ps i
            pages (List.replicate pages.length 1)⟩) := by
  intro pages
  induction pages with
  | nil =>
    intro i s _
    simp [pagesLoop, blocksTrace_nil_counts]
  | cons p rest ih =>
    intro i s hne
    have hp : p ≠ [] := hne p (List.mem_cons_self p rest)
    have hsucc : verifyLoop b ps i p true 10 s
        = (true, ⟨s.trace ++ attemptTxs b.bootloader_address (i * ps) ps p⟩) :=
      verifyLoop_firstSuccess b ps i p s
        (hecho s.trace (addr_high (i * ps)) (addr_low (i * ps)) p hp)
    rw [pagesLoop_cons_true b ps true i p rest s _ hsucc,
      ih (i + 1) _ (fun q hq => hne q (List.mem_cons_of_mem p hq))]
    simp [blocksTrace, repeatTxs, List.replicate_succ, List.append_assoc]

/-- Claim C8: with a device that answers every page read-back with exactly
the bytes last written to that page address (and a fixed chip-info reply
giving a positive page size), write_firmware with verification completes
successfully, and its trace is the chip-info query followed by exactly one
attempt block per page, in ascending index order at address
index * page_size: every page is written exactly once and no retry is
consumed (all attempt counts are 1). -/
theorem write_firmware_echo_succeeds (dev : Device) (a : Nat)
    (s : ProxyState) (fw : List Nat) (pages : List (List Nat)) (ps : Nat)
    (hps : (decode_chip_info (dev.respond
        (s.trace ++ [Tx.write a [0x02, 0x00, 0x00, 0x00]]) a 8)).page_size = ps)
    (h0 : 0 < ps)
    (hload : load_pages ps fw = Except.ok pages)
    (hecho : ∀ (t : List Tx) (h l : Nat) (q : List Nat), q ≠ [] →
      dev.respond (t ++ [Tx.write a ([0x02, 0x01, h, l] ++ q),
        Tx.write a [0x02, 0x01, h, l]]) a ps = q) :
    (TwiBootloader.mk dev a).write_firmware fw true s
      = (Except.ok (), ⟨s.trace ++ ciTxs a
          ++ blocksTrace a ps 0 pages (List.replicate pages.length 1)⟩) := by
  have hwf : (TwiBootloader.mk dev a).write_firmware fw true s
      = pagesLoop (TwiBootloader.mk dev a) ps true 0 pages
          ⟨s.trace ++ ciTxs a⟩ := by
    rw [write_firmware_unfold, hps, hload]
  rw [hwf, pagesLoop_echo (TwiBootloader.mk dev a) ps hecho pages 0
    ⟨s.trace ++ ciTxs a⟩ (load_pages_mem_ne_nil ps fw pages h0 hload)]

/-- Claim C8 witness: the echoing device on a two-page firmware with page
size 2. -/
theorem write_firmware_echo_succeeds_witness :
    (decode_chip_info (echoDev.respond
        ((ProxyState.mk []).trace ++ [Tx.write 0x29 [0x02, 0x00, 0x00, 0x00]])
        0x29 8)).page_size = 2 ∧
    load_pages 2 [1, 2, 3] = Except.ok [[1, 2], [3, 0xFF]] ∧
    (TwiBootloader.mk echoDev 0x29).write_firmware
        [1, 2, 3] true (ProxyState.mk [])
      = (Except.ok (), ⟨(ProxyState.mk []).trace ++ ciTxs 0x29
          ++ blocksTrace 0x29 2 0 [[1, 2], [3, 0xFF]] (List.replicate 2 1)⟩) :=
  ⟨rfl, rfl,
    write_firmware_echo_succeeds echoDev 0x29 (ProxyState.mk []) [1, 2, 3]
      [[1, 2], [3, 0xFF]] 2 rfl (by decide) rfl
      (by
        intro t h l q hq
        obtain ⟨b0, bs, rfl⟩ := List.exists_cons_of_ne_nil hq
        rw [show (t ++ [Tx.write 0x29 ([0x02, 0x01, h, l] ++ (b0 :: bs)),
            Tx.write 0x29 [0x02, 0x01, h, l]])
          = (t ++ [Tx.write 0x29 ([0x02, 0x01, h, l] ++ (b0 :: bs))])
            ++ [Tx.write 0x29 [0x02, 0x01, h, l]] from by simp]
        simp [echoDev, readCmdAddr, lastPageWrite, pagePayload,
          List.getLast?_concat, List.reverse_append])⟩

/-! ### Claim C4: the retry delay schedule -/

/-- Claim C4: for every positive base delay, write_firmware computes
max_delay as the maximum of 1 second and 100 times the base delay, and its
delay schedule, np.logspace base 10 from log10 of the base delay to log10
of max_delay, has exactly 10 entries, starts at the base delay, ends at
max_delay (both inclusive), and is monotonically non-decreasing. -/
theorem delay_durations_spec (delay_s : ℝ) (h : 0 < delay_s) :
    max_delay delay_s = max 1 (100 * delay_s) ∧
    (delay_durations delay_s).length = 10 ∧
    (delay_durations delay_s).head? = some delay_s ∧
    (delay_durations delay_s).getLast? = some (max_delay delay_s) ∧
    List.Sorted (· ≤ ·) (delay_durations delay_s) := by
  have hM : delay_s ≤ max_delay delay_s := by
    rcases le_total delay_s 1 with h1 | h1
    · exact le_trans h1 (le_max_left 1 (100 * delay_s))
    · exact le_trans (by nlinarith) (le_max_right 1 (100 * delay_s))
  have hM0 : (0 : ℝ) < max_delay delay_s :=
    lt_of_lt_of_le one_pos (le_max_left 1 (100 * delay_s))
  have hlog10 : (0 : ℝ) < Real.log 10 := Real.log_pos (by norm_num)
  have hss : Real.log delay_s / Real.log 10
      ≤ Real.log (max_delay delay_s) / Real.log 10 :=
    div_le_div_of_nonneg_right ((Real.log_le_log_iff h hM0).mpr hM) hlog10.le
  have hstep : (0 : ℝ) ≤ (Real.log (max_delay delay_s) / Real.log 10
      - Real.log delay_s / Real.log 10) / 9 :=
    div_nonneg (sub_nonneg.mpr hss) (by norm_num)
  have hexp : delay_durations delay_s = (List.range 10).map
      (fun i : Nat => (10 : ℝ) ^ (Real.log delay_s / Real.log 10
        + (i : ℝ) * ((Real.log (max_delay delay_s) / Real.log 10
            - Real.log delay_s / Real.log 10) / 9))) := by
    have h10 : (((10 : ℕ) : ℝ) - 1) = 9 := by norm_num
    simp only [delay_durations, logspace, h10]
  have hmono : ∀ i j : Nat, i ≤ j →
      (10 : ℝ) ^ (Real.log delay_s / Real.log 10
        + (i : ℝ) * ((Real.log (max_delay delay_s) / Real.log 10
            - Real.log delay_s / Real.log 10) / 9))
      ≤ (10 : ℝ) ^ (Real.log delay_s / Real.log 10
        + (j : ℝ) * ((Real.log (max_delay delay_s) / Real.log 10
            - Real.log delay_s / Real.log 10) / 9)) := by
    intro i j hij
    apply (Real.rpow_le_rpow_left_iff (by norm_num : (1 : ℝ) < 10)).mpr
    apply add_le_add_left
    exact mul_le_mul_of_nonneg_right (by exact_mod_cast hij) hstep
  refine ⟨rfl, ?_, ?_, ?_, ?_⟩
  · rw [hexp]; simp
  · rw [hexp, List.head?_map, show (List.range 10).head? = some 0 from rfl]
    simp only [Option.map_some']
    congr 1
    rw [Nat.cast_zero, zero_mul, add_zero,
      show Real.log delay_s / Real.log 10 = Real.logb 10 delay_s from rfl]
    exact Real.rpow_logb (by norm_num) (by norm_num) h
  · rw [hexp, List.getLast?_map,
      show (List.range 10).getLast? = some 9 from by decide]
    simp only [Option.map_some']
    congr 1
    have h9 : Real.log delay_s / Real.log 10 + ((9 : ℕ) : ℝ)
        * ((Real.log (max_delay delay_s) / Real.log 10
            - Real.log delay_s / Real.log 10) / 9)
        = Real.log (max_delay delay_s) / Real.log 10 := by
      push_cast
      ring
    rw [h9,
      show Real.log (max_delay delay_s) / Real.log 10
        = Real.logb 10 (max_delay delay_s) from rfl]
    exact Real.rpow_logb (by norm_num) (by norm_num) hM0
  · rw [hexp]
    exact List.Pairwise.map _ (fun {i j} hij => hmono i j hij.le)
      (List.pairwise_lt_range 10)

/-- Claim C4 witness: base delay 0.02 seconds gives a 10-entry schedule
from 0.02 to 2.0 inclusive, monotonically non-decreasing. -/
theorem delay_durations_spec_witness :
    (0 : ℝ) < 0.02 ∧
    max_delay 0.02 = 2 ∧
    (delay_durations 0.02).length = 10 ∧
    (delay_durations 0.02).head? = some 0.02 ∧
    (delay_durations 0.02).getLast? = some 2 ∧
    List.Sorted (· ≤ ·) (delay_durations 0.02) := by
  have h : (0 : ℝ) < 0.02 := by norm_num
  have hmax : max_delay (0.02 : ℝ) = 2 := by
    have h2 : (100 : ℝ) * 0.02 = 2 := by norm_num
    rw [max_delay, h2]
    exact max_eq_right (by norm_num)
  obtain ⟨_, hlen, hhead, hlast, hsort⟩ := delay_durations_spec 0.02 h
  exact ⟨h, hmax, hlen, hhead, by rw [hlast, hmax], hsort⟩
